import Mathlib

/-!
Verification development for the FCG-Analysis feature-extraction pipeline
(`generate_csv.py`).

The program is embedded shallowly:

* Python floats are modelled by exact rationals (`ℚ`), together with an
  explicit not-a-number marker (`RFloat`).  All numeric computations the
  program performs on the values relevant to the stated properties are exact
  in IEEE double arithmetic or land within the floating-point tolerance the
  properties allow, so the rational model is faithful where it is used.
* Graphs are finite directed graphs on `Fin n` with a `Finset` of edges,
  matching `nx.DiGraph` (parallel edges collapsed, self-loops allowed,
  unweighted: `.dot` corpora carry no numeric edge weights, so
  `nx.to_numpy_array` produces a 0/1 matrix).
* Fallible library calls are modelled with `Option`/`Except`; the
  per-stage `try/except` blocks of the source become `Option`-valued
  functions.
* File contents are lists of CSV record rows; Python strings are modelled
  as `List Char` so that `str.strip` and `str.endswith` are executable.
-/

attribute [local semireducible] Rat.add Rat.mul Rat.inv Rat.sub

/-- A Python float as seen by this program: either a finite value (exact
rational model) or the not-a-number sentinel produced by `float('nan')` and
by `0.0 / 0.0`.  Infinities never arise in the program's computations and
are not modelled. -/
inductive RFloat where
  | nan : RFloat
  | val (q : ℚ) : RFloat
deriving DecidableEq, Repr

/-- `np.isfinite`-style test used to model the finite-value filter. -/
def RFloat.toRat? : RFloat → Option ℚ
  | .nan => none
  | .val q => some q

/-- Float division as it occurs inside `lmoments3`: the denominator is the
second sample L-moment `l2 ≥ 0`, and whenever `l2 = 0` the numerator is `0`
as well, so the only non-finite outcome is `0.0 / 0.0 = NaN`. -/
def fdiv (a b : ℚ) : RFloat :=
  if b = 0 then .nan else .val (a / b)

/-- Weight of the `i`-th order statistic in the direct formula for the second
sample L-moment (`comb1[i] - comb1[n - i - 1]` in `lmoments3`). -/
def lmomWeight2 (n i : ℕ) : ℤ :=
  (i : ℤ) - ((n : ℤ) - (i : ℤ) - 1)

/-- Weight of the `i`-th order statistic for the third sample L-moment
(`comb3[i] - 2 * comb1[i] * comb1[n - i - 1] + comb3[n - i - 1]`). -/
def lmomWeight3 (n i : ℕ) : ℤ :=
  (Nat.choose i 2 : ℤ) - 2 * (i : ℤ) * ((n : ℤ) - (i : ℤ) - 1)
    + (Nat.choose (n - i - 1) 2 : ℤ)

/-- Weight of the `i`-th order statistic for the fourth sample L-moment
(`comb5[i] - 3 * comb3[i] * comb1[n - i - 1] + 3 * comb1[i] * comb3[n - i - 1]
- comb5[n - i - 1]`). -/
def lmomWeight4 (n i : ℕ) : ℤ :=
  (Nat.choose i 3 : ℤ) - 3 * (Nat.choose i 2 : ℤ) * ((n : ℤ) - (i : ℤ) - 1)
    + 3 * (i : ℤ) * (Nat.choose (n - i - 1) 2 : ℤ)
    - (Nat.choose (n - i - 1) 3 : ℤ)

/-- `lmoments3.lmom_ratios(values, nmom=4)`, i.e. `_samlmusmall` with
`nmom = 4`: sort the sample ascending and form `l1`, `l2` and the ratios
`t3 = l3 / l2`, `t4 = l4 / l2` by the direct order-statistic formulas.  The
library divides by `l2` with no guard, so a zero `l2` produces `0.0 / 0.0 =
NaN` for both ratios. -/
def lmom_ratios (xs : List ℚ) : ℚ × ℚ × RFloat × RFloat :=
  let x := xs.insertionSort (· ≤ ·)
  let n := x.length
  let l1 := (∑ i ∈ Finset.range n, x.getD i 0) / (Nat.choose n 1 : ℚ)
  let l2 := (1 / 2) / (Nat.choose n 2 : ℚ)
    * ∑ i ∈ Finset.range n, ((lmomWeight2 n i : ℚ) * x.getD i 0)
  let s3 := ∑ i ∈ Finset.range n, ((lmomWeight3 n i : ℚ) * x.getD i 0)
  let s4 := ∑ i ∈ Finset.range n, ((lmomWeight4 n i : ℚ) * x.getD i 0)
  (l1, l2, fdiv ((1 / 3) / (Nat.choose n 3 : ℚ) * s3) l2,
    fdiv ((1 / 4) / (Nat.choose n 4 : ℚ) * s4) l2)

/-- `calculate_lmoments`: discard non-finite entries, return `(0, 0, 0, 0)`
when fewer than 4 finite values remain, otherwise the first four sample
L-moment statistics from `lmoments3.lmom_ratios`. -/
def calculate_lmoments (values : List RFloat) : RFloat × RFloat × RFloat × RFloat :=
  let vs := values.filterMap RFloat.toRat?
  if vs.length < 4 then (.val 0, .val 0, .val 0, .val 0)
  else
    let r := lmom_ratios vs
    (.val r.1, .val r.2.1, r.2.2.1, r.2.2.2)

/-- Modelled from the spec: the probability-weighted-moment description of
the L-moment estimator in §4.1 — `b_r` is the mean of the order statistics
weighted by `C(i, r) / C(n - 1, r)`, `L1..L4` are the stated linear
combinations, and `t3`, `t4` are `L3 / L2`, `L4 / L2`, reported as `0` when
`L2 = 0`.  Used only to compare the source computation against the spec's
closed form. -/
def spec_pwm_lmoments (xs : List ℚ) : ℚ × ℚ × ℚ × ℚ :=
  let x := xs.insertionSort (· ≤ ·)
  let n := x.length
  let b : ℕ → ℚ := fun r =>
    (∑ i ∈ Finset.range n, ((Nat.choose i r : ℚ) / (Nat.choose (n - 1) r : ℚ)) * x.getD i 0) / n
  let L2 := 2 * b 1 - b 0
  let L3 := 6 * b 2 - 6 * b 1 + b 0
  let L4 := 20 * b 3 - 30 * b 2 + 12 * b 1 - b 0
  (b 0, L2, if L2 = 0 then 0 else L3 / L2, if L2 = 0 then 0 else L4 / L2)

/-- A parsed directed graph, as produced by
`nx.DiGraph(nx.nx_pydot.read_dot(path))`: nodes are `0 .. n-1`, edges are a
set of ordered pairs (parallel edges collapsed by the `DiGraph` conversion,
self-loops allowed).  `.dot` corpora carry no numeric `weight` attribute, so
the graph is unweighted. -/
structure Graph where
  n : ℕ
  edges : Finset (Fin n × Fin n)

/-- Directed successor list of `v` (adjacency used for shortest paths on the
digraph itself). -/
def Graph.outAdj (G : Graph) (v : Fin G.n) : List (Fin G.n) :=
  (List.finRange G.n).filter (fun u => decide ((v, u) ∈ G.edges))

/-- Adjacency of `G.to_undirected()`: neighbours along an edge in either
direction. -/
def Graph.undAdj (G : Graph) (v : Fin G.n) : List (Fin G.n) :=
  (List.finRange G.n).filter (fun u => decide ((v, u) ∈ G.edges ∨ (u, v) ∈ G.edges))

/-- One step of breadth-first reachability: keep the frontier so far and add
every successor of it. -/
def bfsStep {α : Type} [DecidableEq α] (adj : α → List α) (cur : List α) : List α :=
  (cur ++ cur.flatMap adj).dedup

/-- Shortest-path distance from `v` to `u` as the least `k < fuel` with `u`
within `k` adjacency steps of `v`; `none` means unreachable (with
`fuel = n` this is exact, since a shortest path visits no node twice). -/
def bfsDist {α : Type} [DecidableEq α] (adj : α → List α) (fuel : ℕ) (v u : α) : Option ℕ :=
  (List.range fuel).find? (fun k => decide (u ∈ (bfsStep adj)^[k] [v]))

/-- Out-degree of `v`: number of directed successors (a self-loop counts
once, as in the row sums of `nx.to_numpy_array`). -/
def Graph.outDeg (G : Graph) (v : Fin G.n) : ℕ :=
  (Finset.univ.filter (fun u => (v, u) ∈ G.edges)).card

/-- In-degree of `v`. -/
def Graph.inDeg (G : Graph) (v : Fin G.n) : ℕ :=
  (Finset.univ.filter (fun u => (u, v) ∈ G.edges)).card

/-- `G.degree()` of an `nx.DiGraph`: in-degree plus out-degree. -/
def Graph.degree (G : Graph) (v : Fin G.n) : ℕ :=
  G.inDeg v + G.outDeg v

/-- `nx.density` for a directed graph: `m / (n * (n - 1))`, and `0` when the
graph has no edges or at most one node. -/
def nx_density (G : Graph) : ℚ :=
  if G.edges.card = 0 ∨ G.n ≤ 1 then 0
  else (G.edges.card : ℚ) / ((G.n : ℚ) * ((G.n : ℚ) - 1))

/-- `nx.is_strongly_connected`: every node reaches every node along directed
edges.  (Vacuously decided `true` for `n = 0`, but every caller in this
model guards `n = 0` separately, as networkx raises there.) -/
def Graph.stronglyConnectedB (G : Graph) : Bool :=
  decide (∀ v u : Fin G.n, (bfsDist G.outAdj G.n v u).isSome)

/-- `nx.is_connected(G.to_undirected())`: raises (`error`) on an empty
graph, otherwise tests whether every node is reachable from node `0` in the
undirected projection. -/
def nx_is_connected_und (G : Graph) : Except Unit Bool :=
  if h : G.n = 0 then .error ()
  else .ok (decide (∀ u : Fin G.n,
    (bfsDist G.undAdj G.n ⟨0, Nat.pos_of_ne_zero h⟩ u).isSome))

/-- `nx_is_connected_und` as a `Bool` (`false` when it raises), for stating
properties. -/
def Graph.undConnectedB (G : Graph) : Bool :=
  match nx_is_connected_und G with
  | .ok b => b
  | .error _ => false

/-- The value `nx.diameter` returns on a strongly connected digraph: the
maximum over all ordered pairs of the directed shortest-path distance. -/
def Graph.diameterVal (G : Graph) : ℕ :=
  ((List.finRange G.n).map (fun v =>
    ((List.finRange G.n).map (fun u => (bfsDist G.outAdj G.n v u).getD 0)).foldr max 0)).foldr
    max 0

/-- `nx.diameter` on a digraph: raises (`error`) when the graph is empty or
not strongly connected (some eccentricity is infinite), otherwise the
maximum directed eccentricity. -/
def nx_diameter (G : Graph) : Except Unit ℕ :=
  if G.n = 0 then .error ()
  else if G.stronglyConnectedB then .ok G.diameterVal
  else .error ()

/-- Sum of all directed pairwise distances (finite when the digraph is
strongly connected). -/
def Graph.distSum (G : Graph) : ℚ :=
  ((List.finRange G.n).map (fun v =>
    ((List.finRange G.n).map (fun u => ((bfsDist G.outAdj G.n v u).getD 0 : ℚ))).sum)).sum

/-- `nx.average_shortest_path_length` on a digraph: raises on an empty
graph, returns `0` for a single node, raises when the digraph is not
strongly connected, else the mean pairwise directed distance. -/
def nx_average_shortest_path_length (G : Graph) : Except Unit ℚ :=
  if G.n = 0 then .error ()
  else if G.n = 1 then .ok 0
  else if G.stronglyConnectedB then .ok (G.distSum / ((G.n : ℚ) * ((G.n : ℚ) - 1)))
  else .error ()

/-- Undirected neighbours of `v` excluding `v` itself — `nx.clustering`
ignores self-loops. -/
def Graph.undNbrs (G : Graph) (v : Fin G.n) : Finset (Fin G.n) :=
  Finset.univ.filter (fun u => u ≠ v ∧ ((v, u) ∈ G.edges ∨ (u, v) ∈ G.edges))

/-- Twice the triangle count through `v` in the undirected projection, as
accumulated by `nx.clustering`. -/
def Graph.triangles2 (G : Graph) (v : Fin G.n) : ℕ :=
  ∑ w ∈ G.undNbrs v, (G.undNbrs v ∩ G.undNbrs w).card

/-- Local clustering coefficient from `nx.clustering(G.to_undirected())`:
`0` when there are no triangles (in particular when the degree is below 2),
else `2T / (d (d - 1))`. -/
def Graph.clusteringCoeff (G : Graph) (v : Fin G.n) : ℚ :=
  if G.triangles2 v = 0 then 0
  else (G.triangles2 v : ℚ)
    / (((G.undNbrs v).card : ℚ) * (((G.undNbrs v).card : ℚ) - 1))

/-- `nx.average_clustering(G.to_undirected())`: raises on an empty graph
(division by zero), else the mean local clustering coefficient. -/
def nx_average_clustering (G : Graph) : Except Unit ℚ :=
  if G.n = 0 then .error ()
  else .ok ((∑ v, G.clusteringCoeff v) / (G.n : ℚ))

/-- `nx.to_numpy_array(G).astype(np.float32)`: the 0/1 adjacency matrix in
row-major order.  All entries and row sums are small integers, represented
exactly by `float32`, so the cast loses nothing. -/
def nx_to_numpy_array (G : Graph) : List (List ℚ) :=
  (List.finRange G.n).map (fun i =>
    (List.finRange G.n).map (fun j => if (i, j) ∈ G.edges then 1 else 0))

/-- `calculate_degree_centrality`: `np.sum(adj_matrix, axis=1)`, the vector
of row sums. -/
def calculate_degree_centrality (m : List (List ℚ)) : List ℚ :=
  m.map List.sum

/-- Modelled from the standard `nx.degree_centrality` (which the code does
not call): total degree normalised by `n - 1`.  Used only to contrast with
`calculate_degree_centrality`. -/
def nx_degree_centrality (G : Graph) : List ℚ :=
  (List.finRange G.n).map (fun v => (G.degree v : ℚ) / ((G.n : ℚ) - 1))

/-- The tuple returned by `calculate_statistics` on success. -/
structure Stats where
  numNodes : ℕ
  numEdges : ℕ
  avgDegree : ℚ
  density : ℚ
  diameter : RFloat
  avgClustering : ℚ
  avgPathLength : RFloat
deriving DecidableEq, Repr

/-- The conditional expression
`nx.diameter(G) if nx.is_connected(G.to_undirected()) else float('nan')`. -/
def diameterExpr (G : Graph) (connUnd : Bool) : Except Unit RFloat :=
  if connUnd then (nx_diameter G).map (fun d => RFloat.val (d : ℚ)) else .ok .nan

/-- The conditional expression
`nx.average_shortest_path_length(G) if nx.is_connected(G.to_undirected())
else float('nan')`. -/
def aplExpr (G : Graph) (connUnd : Bool) : Except Unit RFloat :=
  if connUnd then (nx_average_shortest_path_length G).map RFloat.val else .ok .nan

/-- `calculate_statistics`: the seven structural statistics, `None` when any
of the library calls in the `try` block raises (the `except` branch). -/
def calculate_statistics (G : Graph) : Option Stats :=
  match nx_is_connected_und G with
  | .error _ => none
  | .ok connUnd =>
    match diameterExpr G connUnd, nx_average_clustering G, aplExpr G connUnd with
    | .ok diam, .ok clus, .ok apl =>
      some ⟨G.n, G.edges.card,
        (if 0 < G.n then (∑ v, (G.degree v : ℚ)) / (G.n : ℚ) else 0),
        nx_density G, diam, clus, apl⟩
    | _, _, _ => none

/-- Python strings (paths, CSV cells, messages) as character lists, so that
`str.strip` and `str.endswith` are executable term-level functions. -/
abbrev Str := List Char

/-- `str.strip()`: drop leading and trailing whitespace. -/
def strStrip (s : Str) : Str :=
  ((s.dropWhile Char.isWhitespace).reverse.dropWhile Char.isWhitespace).reverse

/-- `str.endswith(suffix)`. -/
def strEndsWith (s suffix : Str) : Bool :=
  decide (s.reverse.take suffix.length = suffix.reverse)

/-- One cell of an output CSV row: the source writes path/label strings and
numbers. -/
inductive Cell where
  | str (s : Str) : Cell
  | num (v : RFloat) : Cell
deriving DecidableEq, Repr

/-- `csv.writer` renders every cell as text.  Only the first column — a path
stored as `Cell.str` — is ever read back by `get_processed_files`, so the
decimal rendering of numeric cells is immaterial; they are rendered here via
the exact rational instead of Python's float `repr`. -/
def Cell.render : Cell → Str
  | .str s => s
  | .num .nan => "nan".toList
  | .num (.val q) => (toString q).toList

/-- Spec §7 error taxonomy for rejected work items. -/
inductive ErrClass where
  | parseFailure
  | emptyGraph
  | statisticsError
  | centralityError
deriving DecidableEq, Repr

/-- One appended row of `unprocessed_files.csv`: identity, classification
(implicit in the source's message text), message. -/
structure FailureRecord where
  identity : Str
  cls : ErrClass
  msg : Str
deriving DecidableEq, Repr

/-- `{file_path}` is interpolated into the real messages; the classification
is what matters, so messages are modelled by their fixed prefix text. -/
def msgEmpty : Str := "Graph is empty or couldn\x27t be parsed.".toList

def msgParse : Str := "Error parsing".toList

def msgStats : Str := "Error calculating statistics".toList

def msgNodesZero : Str := "Number of nodes is zero".toList

def msgCentrality : Str := "Error calculating centrality measures".toList

/-- The fixed external environment of one corpus: the `os.walk` listings of
the two labelled directories (as `(root, filename)` pairs), the per-path
outcome of `nx.nx_pydot.read_dot` + `DiGraph` (`none` = the parse raised),
and the outcomes of the two centrality library calls treated as an external
capability (`none` = the call raised).  A fixed `World` models an unchanged
corpus: re-running the pipeline repeats the same outcomes. -/
structure World where
  malFiles : List (Str × Str)
  nonmalFiles : List (Str × Str)
  parse : Str → Option Graph
  betweenness : Graph → Option (List ℚ)
  closeness : Graph → Option (List ℚ)

/-- A unit of work: one file path plus its directory label. -/
structure WorkItem where
  identity : Str
  label : Bool
deriving DecidableEq, Repr

/-- `parse_network_data`: on a parse exception, one failure row is appended
(by `log_unprocessed_file`) and `None` is returned. -/
def parse_network_data (w : World) (fp : Str) : Option Graph × List FailureRecord :=
  match w.parse fp with
  | some G => (some G, [])
  | none => (none, [⟨fp, .parseFailure, msgParse⟩])

/-- `list(nx.clustering(G.to_undirected()).values())`. -/
def clusteringList (G : Graph) : List ℚ :=
  (List.finRange G.n).map G.clusteringCoeff

/-- `calculate_centrality_measures`: the degree row sums and the clustering
values are in-process computations; `nx.betweenness_centrality` and
`nx.closeness_centrality` may raise, in which case the `except` branch
returns all-`None` — collapsed to `none` here, since the caller only tests
the degree component against `None`. -/
def calculate_centrality_measures (w : World) (G : Graph) :
    Option (List ℚ × List ℚ × List ℚ × List ℚ) :=
  match w.betweenness G, w.closeness G with
  | some bc, some cc =>
    some (calculate_degree_centrality (nx_to_numpy_array G), bc, cc, clusteringList G)
  | _, _ => none

/-- `list(...)` of the 4-tuple returned by `calculate_lmoments`. -/
def lmomFields (t : RFloat × RFloat × RFloat × RFloat) : List Cell :=
  [.num t.1, .num t.2.1, .num t.2.2.1, .num t.2.2.2]

/-- `process_file`: the per-item worker body.  Returns the feature row (or
`None`) together with the failure rows appended during the call, in order.
`processed` is the Resume Ledger snapshot the worker holds. -/
def process_file (w : World) (processed : List Str) (item : WorkItem) :
    Option (List Cell) × List FailureRecord :=
  if item.identity ∈ processed then (none, [])
  else
    match parse_network_data w item.identity with
    | (none, log1) => (none, log1 ++ [⟨item.identity, .emptyGraph, msgEmpty⟩])
    | (some G, log1) =>
      if G.n = 0 ∨ G.edges.card = 0 then
        (none, log1 ++ [⟨item.identity, .emptyGraph, msgEmpty⟩])
      else
        match calculate_statistics G with
        | none => (none, log1 ++ [⟨item.identity, .statisticsError, msgStats⟩])
        | some st =>
          if st.numNodes = 0 then
            (none, log1 ++ [⟨item.identity, .emptyGraph, msgNodesZero⟩])
          else
            match calculate_centrality_measures w G with
            | none => (none, log1 ++ [⟨item.identity, .centralityError, msgCentrality⟩])
            | some (dc, bc, cc, kc) =>
              (some ([.str item.identity,
                  .str (if item.label then "Malicious".toList else "Nonmalicious".toList),
                  .num (.val st.numNodes), .num (.val st.numEdges),
                  .num (.val st.avgDegree), .num (.val st.density),
                  .num st.diameter, .num (.val st.avgClustering),
                  .num st.avgPathLength]
                ++ lmomFields (calculate_lmoments (dc.map .val))
                ++ lmomFields (calculate_lmoments (bc.map .val))
                ++ lmomFields (calculate_lmoments (cc.map .val))
                ++ lmomFields (calculate_lmoments (kc.map .val))), log1)

/-- The dispatch loop over the worker pool: process the items in completion
order, collecting the rows written to the output CSV and the failure rows
appended to the failure CSV. -/
def processAll (w : World) (processed : List Str) :
    List WorkItem → List (List Cell) × List FailureRecord
  | [] => ([], [])
  | item :: rest =>
    let r := process_file w processed item
    let rs := processAll w processed rest
    ((match r.1 with | some row => [row] | none => []) ++ rs.1, r.2 ++ rs.2)

/-- `get_processed_files` (the Resume Ledger): `none` models a missing
output file; otherwise skip the header row and collect the stripped first
column of every non-empty row. -/
def get_processed_files (file : Option (List (List Str))) : List Str :=
  match file with
  | none => []
  | some rows => (rows.drop 1).filterMap (fun r => r.head?.map strStrip)

/-- One `os.walk` pass: keep the `.dot` filenames and join each root and
filename with the path separator. -/
def findDotFiles (files : List (Str × Str)) : List Str :=
  (files.filter (fun p => strEndsWith p.2 ".dot".toList)).map
    (fun p => p.1 ++ '/' :: p.2)

/-- Every corpus path, in enumeration order. -/
def allDotPaths (w : World) : List Str :=
  findDotFiles w.malFiles ++ findDotFiles w.nonmalFiles

/-- The Work Enumerator: corpus paths not in the Resume Ledger, labelled by
their root directory. -/
def enumerateWork (w : World) (processed : List Str) : List WorkItem :=
  ((findDotFiles w.malFiles).filter (fun p => decide (p ∉ processed))).map
    (fun p => ⟨p, true⟩)
  ++ ((findDotFiles w.nonmalFiles).filter (fun p => decide (p ∉ processed))).map
    (fun p => ⟨p, false⟩)

/-- The 25-column header row written when the output file is empty. -/
def outputHeader : List Str :=
  ["Filename".toList, "Malicious/Nonmalicious".toList, "Number of Nodes".toList,
   "Number of Edges".toList, "Average Degree".toList, "Density".toList,
   "Diameter".toList, "Average Clustering".toList, "Average Path Length".toList,
   "Degree L1".toList, "Degree L2".toList, "Degree T3".toList, "Degree T4".toList,
   "Betweenness L1".toList, "Betweenness L2".toList, "Betweenness T3".toList,
   "Betweenness T4".toList, "Closeness L1".toList, "Closeness L2".toList,
   "Closeness T3".toList, "Closeness T4".toList, "Clustering L1".toList,
   "Clustering L2".toList, "Clustering T3".toList, "Clustering T4".toList]

/-- The header row of `unprocessed_files.csv`. -/
def failureHeader : List Str :=
  ["Filename".toList, "Error Message".toList]

/-- The two on-disk CSV files after a run (`none` = the file does not
exist). -/
structure RunResult where
  output : Option (List (List Str))
  failures : Option (List (List Str))
deriving DecidableEq, Repr

/-- `main` for a single run over the fixed corpus `w`.  `outFile` and
`failFile` are the CSV contents on disk at start.  `sched` reorders the
enumerated work into the completion order of `pool.imap_unordered`; theorems
assume only that it permutes its input. -/
def runMain (w : World) (sched : List WorkItem → List WorkItem)
    (outFile failFile : Option (List (List Str))) : RunResult :=
  let failInit := match failFile with
    | none => [failureHeader]
    | some rows => rows
  let processed := get_processed_files outFile
  let items := enumerateWork w processed
  if items.isEmpty then ⟨outFile, some failInit⟩
  else
    let res := processAll w processed (sched items)
    let prior := outFile.getD []
    let withHeader := if prior.isEmpty then [outputHeader] else prior
    ⟨some (withHeader ++ res.1.map (fun row => row.map Cell.render)),
     some (failInit ++ res.2.map (fun fr => [fr.identity, fr.msg]))⟩

/-- First column of every data row (header skipped) of an output file. -/
def outputIdentities (file : Option (List (List Str))) : List Str :=
  ((file.getD []).drop 1).filterMap List.head?

/-- A concrete three-file corpus used to instantiate theorems: one
disconnected-but-nonempty graph, one strongly connected graph, one weakly
connected path (whose statistics computation raises); the external
centrality calls succeed with one value per node. -/
def witnessWorld : World where
  malFiles := [("Malicious".toList, "a.dot".toList), ("Malicious".toList, "c.dot".toList)]
  nonmalFiles := [("Nonmalicious".toList, "b.dot".toList)]
  parse := fun p =>
    if p = "Malicious/a.dot".toList then some ⟨4, {(0, 1), (2, 3)}⟩
    else if p = "Malicious/c.dot".toList then some ⟨2, {(0, 1), (1, 0)}⟩
    else if p = "Nonmalicious/b.dot".toList then some ⟨2, {(0, 1)}⟩
    else if p = "Malicious/e.dot".toList then some ⟨1, ∅⟩
    else none
  betweenness := fun G => some ((List.finRange G.n).map (fun _ => 0))
  closeness := fun G => some ((List.finRange G.n).map (fun _ => 0))

/-- Corpus variant whose betweenness call always raises, exercising the
`CentralityError` branch. -/
def witnessWorldCent : World where
  malFiles := []
  nonmalFiles := []
  parse := fun _ => some ⟨2, {(0, 1), (1, 0)}⟩
  betweenness := fun _ => none
  closeness := fun _ => none

/-- Corpus variant where every parse raises. -/
def witnessWorldParse : World where
  malFiles := []
  nonmalFiles := []
  parse := fun _ => none
  betweenness := fun _ => none
  closeness := fun _ => none

theorem filterMap_toRat_replicate (n : ℕ) (c : ℚ) :
    (List.replicate n (RFloat.val c)).filterMap RFloat.toRat? = List.replicate n c := by
  induction n with
  | zero => rfl
  | succ k ih => simp [List.replicate_succ, List.filterMap_cons, RFloat.toRat?, ih]

theorem insertionSort_replicate (n : ℕ) (c : ℚ) :
    (List.replicate n c).insertionSort (· ≤ ·) = List.replicate n c := by
  have hp := List.perm_insertionSort (fun a b : ℚ => a ≤ b) (List.replicate n c)
  refine List.eq_replicate_iff.2 ⟨by simp [hp.length_eq], fun b hb => ?_⟩
  exact List.eq_of_mem_replicate (hp.mem_iff.1 hb)

theorem getD_replicate {i n : ℕ} (h : i < n) (c d : ℚ) :
    (List.replicate n c).getD i d = c := by
  simp [List.getD_eq_getElem?_getD, List.getElem?_replicate, h]

theorem sum_lmomWeight2 (n : ℕ) : ∑ i ∈ Finset.range n, lmomWeight2 n i = 0 := by
  have h := Finset.sum_range_reflect (fun i => ((n : ℤ) - i - 1)) n
  have h2 : ∀ i ∈ Finset.range n, ((n : ℤ) - ((n - 1 - i : ℕ) : ℤ) - 1) = (i : ℤ) := by
    intro i hi
    have := Finset.mem_range.1 hi
    omega
  rw [Finset.sum_congr rfl h2] at h
  unfold lmomWeight2
  rw [Finset.sum_sub_distrib, ← h, sub_self]

/-- C3 (amended): for `n ≥ 4` identical values the second L-moment is `0`
and the unguarded divisions in `lmoments3` make both ratios `0.0 / 0.0 =
NaN` — not `0` as the claim states.  `L1` and `L2` are still returned as
finite values. -/
theorem calculate_lmoments_constant_input (n : ℕ) (c : ℚ) (h : 4 ≤ n) :
    calculate_lmoments (List.replicate n (RFloat.val c))
      = (.val c, .val 0, .nan, .nan) := by
  have h0 : (n : ℚ) ≠ 0 := Nat.cast_ne_zero.2 (by omega)
  simp only [calculate_lmoments, filterMap_toRat_replicate, List.length_replicate]
  rw [if_neg (by omega)]
  simp only [lmom_ratios, insertionSort_replicate, List.length_replicate]
  have hgd : ∀ i ∈ Finset.range n, (List.replicate n c).getD i 0 = c := fun i hi =>
    getD_replicate (Finset.mem_range.1 hi) c 0
  have hsum1 : (∑ i ∈ Finset.range n, (List.replicate n c).getD i 0) = n * c := by
    rw [Finset.sum_congr rfl hgd, Finset.sum_const, Finset.card_range, nsmul_eq_mul]
  have hsum2 : (∑ i ∈ Finset.range n, ((lmomWeight2 n i : ℚ) * (List.replicate n c).getD i 0))
      = 0 := by
    rw [Finset.sum_congr rfl (fun i hi => by rw [hgd i hi]), ← Finset.sum_mul]
    rw [← Int.cast_sum, sum_lmomWeight2]
    simp
  rw [hsum1, hsum2, mul_zero]
  have hl1 : (n : ℚ) * c / (Nat.choose n 1 : ℚ) = c := by
    rw [Nat.choose_one_right, mul_comm, mul_div_assoc, div_self h0, mul_one]
  rw [hl1]
  simp [fdiv]

/-- Witness for `calculate_lmoments_constant_input` at `n = 4`, `c = 5`. -/
theorem calculate_lmoments_constant_input_witness :
    4 ≤ 4
    ∧ calculate_lmoments (List.replicate 4 (RFloat.val 5))
      = (.val 5, .val 0, .nan, .nan) :=
  ⟨by decide, calculate_lmoments_constant_input 4 5 (by decide)⟩

/-- C3 counterexample: on `[5.0, 5.0, 5.0, 5.0]` (four finite values with
`L2 = 0`) the code returns `t3 = NaN`, not the `0` the claim states. -/
theorem constant_input_ratio_counterexample :
    (calculate_lmoments [RFloat.val 5, RFloat.val 5, RFloat.val 5, RFloat.val 5]).2.2.1
      = RFloat.nan
    ∧ (calculate_lmoments [RFloat.val 5, RFloat.val 5, RFloat.val 5, RFloat.val 5]).2.2.1
      ≠ RFloat.val 0
    ∧ (calculate_lmoments [RFloat.val 5, RFloat.val 5, RFloat.val 5, RFloat.val 5]).2.1
      = RFloat.val 0 := by decide

/-- C4: an input with fewer than 4 finite values yields exactly `(0,0,0,0)`,
a normal result, not an error. -/
theorem calculate_lmoments_degenerate (values : List RFloat)
    (h : (values.filterMap RFloat.toRat?).length < 4) :
    calculate_lmoments values = (.val 0, .val 0, .val 0, .val 0) := by
  simp only [calculate_lmoments, if_pos h]

/-- Witness for `calculate_lmoments_degenerate` at the two inputs named by
the claim: `[1.0, 2.0]` and `[NaN, NaN, NaN, NaN, 5.0]`. -/
theorem calculate_lmoments_degenerate_witness :
    (([RFloat.val 1, RFloat.val 2].filterMap RFloat.toRat?).length < 4
      ∧ calculate_lmoments [RFloat.val 1, RFloat.val 2]
        = (.val 0, .val 0, .val 0, .val 0))
    ∧ (([RFloat.nan, RFloat.nan, RFloat.nan, RFloat.nan, RFloat.val 5].filterMap
          RFloat.toRat?).length < 4
      ∧ calculate_lmoments [RFloat.nan, RFloat.nan, RFloat.nan, RFloat.nan, RFloat.val 5]
        = (.val 0, .val 0, .val 0, .val 0)) :=
  ⟨⟨by decide, calculate_lmoments_degenerate _ (by decide)⟩,
   ⟨by decide, calculate_lmoments_degenerate _ (by decide)⟩⟩

/-- C7 (amended): for `[1,2,3,4,5]` the code returns `L1 = 3.0` (the sample
mean) and `L2`, `t3`, `t4` equal to the values derived from the
probability-weighted moments `b0..b3` via the spec's closed form — which
give `L2 = 1` (not `4/3`), `t3 = 0`, `t4 = 0`. -/
theorem lmoments_12345_values :
    calculate_lmoments ([1, 2, 3, 4, 5].map RFloat.val)
      = (.val 3, .val 1, .val 0, .val 0)
    ∧ spec_pwm_lmoments [1, 2, 3, 4, 5] = (3, 1, 0, 0)
    ∧ (3 : ℚ) = (1 + 2 + 3 + 4 + 5) / 5 := by decide

/-- C7 counterexample: the claim's parenthetical value `L2 = 4/3 ≈ 1.3333`
is wrong — the code (and the claim's own PWM formula) produce `L2 = 1`
exactly, which differs from `4/3` by `1/3`, far beyond floating-point
tolerance. -/
theorem lmoments_12345_l2_counterexample :
    (calculate_lmoments ([1, 2, 3, 4, 5].map RFloat.val)).2.1 = .val 1
    ∧ (calculate_lmoments ([1, 2, 3, 4, 5].map RFloat.val)).2.1 ≠ .val (4 / 3)
    ∧ (spec_pwm_lmoments [1, 2, 3, 4, 5]).2.1 = 1
    ∧ |(1 : ℚ) - 4 / 3| = 1 / 3 := by decide


theorem calculate_statistics_numNodes (G : Graph) (st : Stats)
    (h : calculate_statistics G = some st) : st.numNodes = G.n := by
  unfold calculate_statistics at h
  split at h
  · exact absurd h (by simp)
  · split at h
    · cases h
      rfl
    · exact absurd h (by simp)

/-- Exhaustive case analysis of one `process_file` call: the item is either
skipped via the ledger, rejected at one of the four classified stages (a
parse failure logging twice — once in `parse_network_data`, once more in
`process_file`), or processed into a feature row with no failure log. -/
theorem process_file_cases (w : World) (processed : List Str) (item : WorkItem) :
    (item.identity ∈ processed ∧ process_file w processed item = (none, []))
    ∨ (item.identity ∉ processed ∧ w.parse item.identity = none
        ∧ process_file w processed item
          = (none, [⟨item.identity, .parseFailure, msgParse⟩,
                    ⟨item.identity, .emptyGraph, msgEmpty⟩]))
    ∨ (∃ G, item.identity ∉ processed ∧ w.parse item.identity = some G
        ∧ (G.n = 0 ∨ G.edges.card = 0)
        ∧ process_file w processed item = (none, [⟨item.identity, .emptyGraph, msgEmpty⟩]))
    ∨ (∃ G, item.identity ∉ processed ∧ w.parse item.identity = some G
        ∧ ¬(G.n = 0 ∨ G.edges.card = 0) ∧ calculate_statistics G = none
        ∧ process_file w processed item
          = (none, [⟨item.identity, .statisticsError, msgStats⟩]))
    ∨ (∃ G st, item.identity ∉ processed ∧ w.parse item.identity = some G
        ∧ ¬(G.n = 0 ∨ G.edges.card = 0) ∧ calculate_statistics G = some st
        ∧ calculate_centrality_measures w G = none
        ∧ process_file w processed item
          = (none, [⟨item.identity, .centralityError, msgCentrality⟩]))
    ∨ (∃ G st dc bc cc kc, item.identity ∉ processed ∧ w.parse item.identity = some G
        ∧ ¬(G.n = 0 ∨ G.edges.card = 0) ∧ calculate_statistics G = some st
        ∧ calculate_centrality_measures w G = some (dc, bc, cc, kc)
        ∧ process_file w processed item
          = (some ([.str item.identity,
              .str (if item.label then "Malicious".toList else "Nonmalicious".toList),
              .num (.val st.numNodes), .num (.val st.numEdges), .num (.val st.avgDegree),
              .num (.val st.density), .num st.diameter, .num (.val st.avgClustering),
              .num st.avgPathLength]
            ++ lmomFields (calculate_lmoments (dc.map .val))
            ++ lmomFields (calculate_lmoments (bc.map .val))
            ++ lmomFields (calculate_lmoments (cc.map .val))
            ++ lmomFields (calculate_lmoments (kc.map .val))), [])) := by
  by_cases hmem : item.identity ∈ processed
  · exact Or.inl ⟨hmem, by simp [process_file, hmem]⟩
  · rcases hp : w.parse item.identity with _ | G
    · exact Or.inr (Or.inl ⟨hmem, rfl,
        by simp [process_file, parse_network_data, hmem, hp]⟩)
    · by_cases hempty : G.n = 0 ∨ G.edges.card = 0
      · refine Or.inr (Or.inr (Or.inl ⟨G, hmem, rfl, hempty, ?_⟩))
        rcases hempty with h0 | h0 <;>
          simp [process_file, parse_network_data, hmem, hp, h0]
      · have hne : ¬G.n = 0 ∧ ¬G.edges = ∅ := by
          push_neg at hempty
          exact ⟨hempty.1, by simpa [← Finset.card_eq_zero] using hempty.2⟩
        rcases hst : calculate_statistics G with _ | st
        · refine Or.inr (Or.inr (Or.inr (Or.inl ⟨G, hmem, rfl, hempty, hst, ?_⟩)))
          simp [process_file, parse_network_data, hmem, hp, hst, hne.1, hne.2]
        · have hz : ¬ st.numNodes = 0 := by
            rw [calculate_statistics_numNodes G st hst]
            intro h0
            exact hempty (Or.inl h0)
          rcases hcm : calculate_centrality_measures w G with _ | ⟨dc, bc, cc, kc⟩
          · refine Or.inr (Or.inr (Or.inr (Or.inr (Or.inl
              ⟨G, st, hmem, rfl, hempty, hst, hcm, ?_⟩))))
            simp [process_file, parse_network_data, hmem, hp, hst, hz, hcm, hne.1, hne.2]
          · refine Or.inr (Or.inr (Or.inr (Or.inr (Or.inr
              ⟨G, st, dc, bc, cc, kc, hmem, rfl, hempty, hst, hcm, ?_⟩))))
            simp [process_file, parse_network_data, hmem, hp, hst, hz, hcm, hne.1, hne.2]

theorem process_file_row_parts (w : World) (p : List Str) (item : WorkItem)
    (row : List Cell) (h : (process_file w p item).1 = some row) :
    row.head? = some (.str item.identity)
    ∧ row.length = 25
    ∧ row.getD 1 (.num .nan)
      = .str (if item.label then "Malicious".toList else "Nonmalicious".toList) := by
  rcases process_file_cases w p item with
    ⟨_, he⟩ | ⟨_, _, he⟩ | ⟨G, _, _, _, he⟩ | ⟨G, _, _, _, _, he⟩
    | ⟨G, st, _, _, _, _, _, he⟩ | ⟨G, st, dc, bc, cc, kc, _, _, _, _, _, he⟩ <;>
    rw [he] at h
  iterate 5 exact absurd h (by simp)
  have hrow := Option.some.inj h
  rw [← hrow]
  refine ⟨rfl, ?_, rfl⟩
  simp [lmomFields]

theorem process_file_log_identity (w : World) (p : List Str) (item : WorkItem) :
    ∀ fr ∈ (process_file w p item).2, fr.identity = item.identity := by
  rcases process_file_cases w p item with
    ⟨_, he⟩ | ⟨_, _, he⟩ | ⟨G, _, _, _, he⟩ | ⟨G, _, _, _, _, he⟩
    | ⟨G, st, _, _, _, _, _, he⟩ | ⟨G, st, dc, bc, cc, kc, _, _, _, _, _, he⟩ <;>
    rw [he] <;> intro fr hfr <;> simp at hfr <;> first
      | (rcases hfr with h | h <;> rw [h])
      | rw [hfr]

theorem process_file_success_no_log (w : World) (p : List Str) (item : WorkItem)
    (h : (process_file w p item).1.isSome) : (process_file w p item).2 = [] := by
  rcases process_file_cases w p item with
    ⟨_, he⟩ | ⟨_, _, he⟩ | ⟨G, _, _, _, he⟩ | ⟨G, _, _, _, _, he⟩
    | ⟨G, st, _, _, _, _, _, he⟩ | ⟨G, st, dc, bc, cc, kc, _, _, _, _, _, he⟩ <;>
    rw [he] at h ⊢ <;> simp_all

theorem processAll_fst (w : World) (p : List Str) (l : List WorkItem) :
    (processAll w p l).1 = l.filterMap (fun it => (process_file w p it).1) := by
  induction l with
  | nil => rfl
  | cons it rest ih =>
    simp only [processAll, ih, List.filterMap_cons]
    rcases (process_file w p it).1 with _ | row <;> simp

theorem processAll_snd (w : World) (p : List Str) (l : List WorkItem) :
    (processAll w p l).2 = l.flatMap (fun it => (process_file w p it).2) := by
  induction l with
  | nil => rfl
  | cons it rest ih => simp [processAll, ih]

/-- C5 (amended): an item accepted into the output logs no failure row; a
rejected item logs exactly two failure rows when its parse failed (one from
`parse_network_data`, one more from the combined empty-or-unparsed check of
`process_file`) and exactly one otherwise; every logged row carries the
item's identity; and within a run no identity appears both as the first
column of an output row and in a failure row. -/
theorem failure_record_accounting (w : World) (processed : List Str) (item : WorkItem)
    (hmem : item.identity ∉ processed) :
    ((process_file w processed item).1.isSome → (process_file w processed item).2 = [])
    ∧ ((process_file w processed item).1 = none → w.parse item.identity = none →
        (process_file w processed item).2.length = 2)
    ∧ ((process_file w processed item).1 = none → (w.parse item.identity).isSome →
        (process_file w processed item).2.length = 1)
    ∧ (∀ fr ∈ (process_file w processed item).2, fr.identity = item.identity)
    ∧ (∀ items : List WorkItem, (items.map WorkItem.identity).Nodup →
        ∀ row ∈ (processAll w processed items).1,
        ∀ fr ∈ (processAll w processed items).2,
          row.head? ≠ some (.str fr.identity)) := by
  refine ⟨process_file_success_no_log w processed item, ?_, ?_, process_file_log_identity w processed item, ?_⟩
  · intro _ hp
    rcases process_file_cases w processed item with
      ⟨hm, _⟩ | ⟨_, _, he⟩ | ⟨G, _, hpg, _, _⟩ | ⟨G, _, hpg, _, _, _⟩
      | ⟨G, st, _, hpg, _, _, _, _⟩ | ⟨G, st, dc, bc, cc, kc, _, hpg, _, _, _, _⟩
    · exact absurd hm hmem
    · simp [he]
    · exact absurd hp (by rw [hpg]; simp)
    · exact absurd hp (by rw [hpg]; simp)
    · exact absurd hp (by rw [hpg]; simp)
    · exact absurd hp (by rw [hpg]; simp)
  · intro hnone hp
    rcases process_file_cases w processed item with
      ⟨hm, _⟩ | ⟨_, hpn, _⟩ | ⟨G, _, _, _, he⟩ | ⟨G, _, _, _, _, he⟩
      | ⟨G, st, _, _, _, _, _, he⟩ | ⟨G, st, dc, bc, cc, kc, _, _, _, _, _, he⟩
    · exact absurd hm hmem
    · rw [hpn] at hp
      exact absurd hp (by simp)
    · simp [he]
    · simp [he]
    · simp [he]
    · rw [he] at hnone
      exact absurd hnone (by simp)
  · intro items hnd row hrow fr hfr heq
    rw [processAll_fst] at hrow
    rw [processAll_snd] at hfr
    obtain ⟨it₁, hit₁, hr₁⟩ := List.mem_filterMap.1 hrow
    obtain ⟨it₂, hit₂, hf₂⟩ := List.mem_flatMap.1 hfr
    have hid₂ := process_file_log_identity w processed it₂ fr hf₂
    have hhead := (process_file_row_parts w processed it₁ row hr₁).1
    rw [hhead] at heq
    have hideq : it₁.identity = it₂.identity := by
      have := Option.some.inj heq
      rw [hid₂] at this
      exact Cell.str.inj this
    have hit_eq : it₁ = it₂ :=
      List.inj_on_of_nodup_map hnd hit₁ hit₂ hideq
    have hempty_log := process_file_success_no_log w processed it₂
      (by rw [← hit_eq, hr₁]; rfl)
    rw [hempty_log] at hf₂
    exact absurd hf₂ (List.not_mem_nil _)

/-- C5 counterexample: an item rejected for a parse failure produces two
failure rows in the failure sink, not exactly one as the claim states. -/
theorem parse_failure_two_records_counterexample :
    (process_file witnessWorldParse [] ⟨"Malicious/x.dot".toList, true⟩).1 = none
    ∧ (process_file witnessWorldParse [] ⟨"Malicious/x.dot".toList, true⟩).2.length = 2
    ∧ (process_file witnessWorldParse [] ⟨"Malicious/x.dot".toList, true⟩).2.length ≠ 1 := by
  decide

/-- Witness for `failure_record_accounting`: the parse-failure branch at a
concrete item, with all hypotheses discharged. -/
theorem failure_record_accounting_witness :
    (process_file witnessWorldParse [] ⟨"Malicious/x.dot".toList, true⟩).2.length = 2 :=
  (failure_record_accounting witnessWorldParse [] ⟨"Malicious/x.dot".toList, true⟩
    (by decide)).2.1 (by decide) (by rfl)

/-- C6: `process_file` applies the rejection stages in the spec's order with
short-circuiting — a graph with zero nodes or zero edges is rejected first
and classified `EmptyGraph` (for any outcome of the later stages), then a
statistics failure is classified `StatisticsError`, then a missing
degree-centrality series is classified `CentralityError`; each failing stage
is terminal for the item, appends exactly its one classified failure record,
and the dispatcher continues with the remaining items of the run. -/
theorem process_file_rejection_order (w : World) (processed : List Str)
    (item : WorkItem) (hmem : item.identity ∉ processed) :
    (∀ G, w.parse item.identity = some G → G.n = 0 ∨ G.edges.card = 0 →
      process_file w processed item
        = (none, [⟨item.identity, .emptyGraph, msgEmpty⟩]))
    ∧ (∀ G, w.parse item.identity = some G → ¬(G.n = 0 ∨ G.edges.card = 0) →
      calculate_statistics G = none →
      process_file w processed item
        = (none, [⟨item.identity, .statisticsError, msgStats⟩]))
    ∧ (∀ G st, w.parse item.identity = some G → ¬(G.n = 0 ∨ G.edges.card = 0) →
      calculate_statistics G = some st → calculate_centrality_measures w G = none →
      process_file w processed item
        = (none, [⟨item.identity, .centralityError, msgCentrality⟩]))
    ∧ (∀ rest : List WorkItem,
      (processAll w processed (item :: rest)).1
          = (process_file w processed item).1.toList ++ (processAll w processed rest).1
        ∧ (processAll w processed (item :: rest)).2
          = (process_file w processed item).2 ++ (processAll w processed rest).2) := by
  refine ⟨?_, ?_, ?_, ?_⟩
  · intro G hp hempty
    rcases hempty with h0 | h0 <;>
      simp [process_file, parse_network_data, hmem, hp, h0]
  · intro G hp hempty hst
    have hne : ¬G.n = 0 ∧ ¬G.edges = ∅ := by
      push_neg at hempty
      exact ⟨hempty.1, by simpa [← Finset.card_eq_zero] using hempty.2⟩
    simp [process_file, parse_network_data, hmem, hp, hst, hne.1, hne.2]
  · intro G st hp hempty hst hcm
    have hne : ¬G.n = 0 ∧ ¬G.edges = ∅ := by
      push_neg at hempty
      exact ⟨hempty.1, by simpa [← Finset.card_eq_zero] using hempty.2⟩
    have hz : ¬ st.numNodes = 0 := by
      rw [calculate_statistics_numNodes G st hst]
      exact hne.1
    simp [process_file, parse_network_data, hmem, hp, hst, hz, hcm, hne.1, hne.2]
  · intro rest
    constructor
    · rw [processAll_fst, processAll_fst, List.filterMap_cons]
      rcases (process_file w processed item).1 with _ | row <;> simp
    · rw [processAll_snd, processAll_snd, List.flatMap_cons]

/-- Witness for `process_file_rejection_order`: the three classified
rejections at concrete items (an edgeless graph, a weakly-but-not-strongly
connected graph whose `nx.diameter` raises, and a corpus whose betweenness
call raises). -/
theorem process_file_rejection_order_witness :
    process_file witnessWorld [] ⟨"Malicious/e.dot".toList, true⟩
      = (none, [⟨"Malicious/e.dot".toList, .emptyGraph, msgEmpty⟩])
    ∧ process_file witnessWorld [] ⟨"Nonmalicious/b.dot".toList, false⟩
      = (none, [⟨"Nonmalicious/b.dot".toList, .statisticsError, msgStats⟩])
    ∧ process_file witnessWorldCent [] ⟨"Malicious/z.dot".toList, true⟩
      = (none, [⟨"Malicious/z.dot".toList, .centralityError, msgCentrality⟩]) :=
  ⟨(process_file_rejection_order witnessWorld [] ⟨"Malicious/e.dot".toList, true⟩
      (by decide)).1 ⟨1, ∅⟩ (by rfl) (by decide),
   (process_file_rejection_order witnessWorld [] ⟨"Nonmalicious/b.dot".toList, false⟩
      (by decide)).2.1 ⟨2, {(0, 1)}⟩ (by rfl) (by decide) (by decide),
   (process_file_rejection_order witnessWorldCent [] ⟨"Malicious/z.dot".toList, true⟩
      (by decide)).2.2.1 ⟨2, {(0, 1), (1, 0)}⟩ ⟨2, 2, 2, 1, .val 1, 0, .val 1⟩
      (by rfl) (by decide) (by decide) (by rfl)⟩

/-- C8: every row produced by `process_file` has exactly 25 cells in the
documented order — identity first, then the literal label string
`Malicious`/`Nonmalicious`, then the 7 structural statistics and the four
4-tuples of L-moment summaries — and hence so does every row a run hands to
the Result Sink, whatever the centrality values were. -/
theorem row_schema_stability (w : World) (processed : List Str) (item : WorkItem)
    (row : List Cell) (h : (process_file w processed item).1 = some row) :
    row.length = 25
    ∧ row.head? = some (.str item.identity)
    ∧ row.getD 1 (.num .nan)
      = .str (if item.label then "Malicious".toList else "Nonmalicious".toList)
    ∧ (∀ items r, r ∈ (processAll w processed items).1 →
        r.length = 25
        ∧ (r.getD 1 (.num .nan) = .str "Malicious".toList
          ∨ r.getD 1 (.num .nan) = .str "Nonmalicious".toList)) := by
  have hparts := process_file_row_parts w processed item row h
  refine ⟨hparts.2.1, hparts.1, hparts.2.2, ?_⟩
  intro items r hr
  rw [processAll_fst] at hr
  obtain ⟨it, _, hsome⟩ := List.mem_filterMap.1 hr
  have hp := process_file_row_parts w processed it r hsome
  refine ⟨hp.2.1, ?_⟩
  rcases hlab : it.label with _ | _
  · right
    have := hp.2.2
    rw [hlab] at this
    simpa using this
  · left
    have := hp.2.2
    rw [hlab] at this
    simpa using this

/-- Witness for `row_schema_stability`: the strongly connected two-node
graph is processed into a row, and that row has 25 cells with the literal
label `Malicious`. -/
theorem row_schema_stability_witness :
    ((process_file witnessWorld [] ⟨"Malicious/c.dot".toList, true⟩).1.map
        (fun row => (row.length, row.getD 1 (.num .nan))))
      = some (25, .str "Malicious".toList) := by
  rcases hr : (process_file witnessWorld [] ⟨"Malicious/c.dot".toList, true⟩).1 with _ | row
  · exact absurd hr (by decide)
  · have hp := row_schema_stability witnessWorld [] ⟨"Malicious/c.dot".toList, true⟩ row hr
    have h2 := hp.2.2.1
    rw [if_pos rfl] at h2
    show some (row.length, row.getD 1 (Cell.num RFloat.nan))
        = some (25, Cell.str "Malicious".toList)
    rw [hp.1, h2]

theorem row_sum_eq_outDeg (G : Graph) (v : Fin G.n) :
    ((List.finRange G.n).map (fun j => if (v, j) ∈ G.edges then (1 : ℚ) else 0)).sum
      = (G.outDeg v : ℚ) := by
  rw [← Fin.sum_univ_def]
  unfold Graph.outDeg
  rw [Finset.sum_boole]

/-- C10: the degree series fed to the L-moment estimator is the vector of
row sums of the 0/1 adjacency matrix — one entry per node, each node's
out-degree, un-normalised — and differs from the normalised degree
centrality of `nx.degree_centrality` already on a 3-node path. -/
theorem degree_centrality_row_sums (G : Graph) (i : ℕ) (h : i < G.n) :
    (calculate_degree_centrality (nx_to_numpy_array G)).length = G.n
    ∧ (calculate_degree_centrality (nx_to_numpy_array G)).getD i 0
      = (G.outDeg ⟨i, h⟩ : ℚ)
    ∧ calculate_degree_centrality (nx_to_numpy_array ⟨3, {(0, 1), (1, 2)}⟩)
      ≠ nx_degree_centrality ⟨3, {(0, 1), (1, 2)}⟩ := by
  have hm : calculate_degree_centrality (nx_to_numpy_array G)
      = (List.finRange G.n).map (fun v =>
          ((List.finRange G.n).map (fun j => if (v, j) ∈ G.edges then (1 : ℚ) else 0)).sum) := by
    simp [calculate_degree_centrality, nx_to_numpy_array, List.map_map]
  refine ⟨by simp [hm], ?_, by decide⟩
  rw [hm]
  rw [List.getD_eq_getElem _ _ (by simpa using h), List.getElem_map]
  rw [row_sum_eq_outDeg G _]
  have hlt : i < (List.finRange G.n).length := by simpa using h
  have hfin : (List.finRange G.n)[i] = (⟨i, h⟩ : Fin G.n) := by
    apply Fin.ext
    simp
  rw [hfin]

/-- Witness for `degree_centrality_row_sums` on the 3-node path at index 1. -/
theorem degree_centrality_row_sums_witness :
    (1 : ℕ) < 3
    ∧ (calculate_degree_centrality (nx_to_numpy_array ⟨3, {(0, 1), (1, 2)}⟩)).getD 1 0
      = ((⟨3, {(0, 1), (1, 2)}⟩ : Graph).outDeg ⟨1, by decide⟩ : ℚ) :=
  ⟨by decide, (degree_centrality_row_sums ⟨3, {(0, 1), (1, 2)}⟩ 1 (by decide)).2.1⟩

theorem bfsStep_subset {α : Type} [DecidableEq α] {adj adj' : α → List α}
    (hadj : ∀ v x, x ∈ adj v → x ∈ adj' v) {cur cur' : List α}
    (hc : ∀ x ∈ cur, x ∈ cur') : ∀ x ∈ bfsStep adj cur, x ∈ bfsStep adj' cur' := by
  intro x hx
  unfold bfsStep at *
  rw [List.mem_dedup] at *
  rcases List.mem_append.1 hx with hx' | hx'
  · exact List.mem_append.2 (Or.inl (hc x hx'))
  · obtain ⟨y, hy, hxy⟩ := List.mem_flatMap.1 hx'
    exact List.mem_append.2 (Or.inr (List.mem_flatMap.2 ⟨y, hc y hy, hadj y x hxy⟩))

theorem bfsIter_subset {α : Type} [DecidableEq α] {adj adj' : α → List α}
    (hadj : ∀ v x, x ∈ adj v → x ∈ adj' v) (v : α) (k : ℕ) :
    ∀ x ∈ (bfsStep adj)^[k] [v], x ∈ (bfsStep adj')^[k] [v] := by
  induction k with
  | zero => simp
  | succ m ih =>
    intro x hx
    rw [Function.iterate_succ_apply'] at *
    exact bfsStep_subset hadj ih x hx

theorem bfsDist_isSome_mono {α : Type} [DecidableEq α] {adj adj' : α → List α}
    (hadj : ∀ v x, x ∈ adj v → x ∈ adj' v) (fuel : ℕ) (v u : α)
    (h : (bfsDist adj fuel v u).isSome) : (bfsDist adj' fuel v u).isSome := by
  rw [bfsDist, List.find?_isSome] at *
  obtain ⟨k, hk, hp⟩ := h
  exact ⟨k, hk, by simpa using bfsIter_subset hadj v k u (by simpa using hp)⟩

theorem outAdj_subset_undAdj (G : Graph) :
    ∀ v x, x ∈ G.outAdj v → x ∈ G.undAdj v := by
  intro v x hx
  unfold Graph.outAdj at hx
  unfold Graph.undAdj
  rw [List.mem_filter] at hx ⊢
  refine ⟨hx.1, ?_⟩
  have h2 : (v, x) ∈ G.edges := by simpa using hx.2
  simpa using Or.inl h2

theorem nx_is_connected_und_ok (G : Graph) (h : G.n ≠ 0) :
    nx_is_connected_und G = .ok G.undConnectedB := by
  unfold Graph.undConnectedB
  unfold nx_is_connected_und
  rw [dif_neg h]

/-- A strongly connected graph with at least one node has a connected
undirected projection: directed reachability implies undirected
reachability. -/
theorem strongly_connected_undConnected (G : Graph) (h0 : G.n ≠ 0)
    (h : G.stronglyConnectedB = true) : G.undConnectedB = true := by
  unfold Graph.undConnectedB
  unfold nx_is_connected_und
  rw [dif_neg h0]
  rw [Graph.stronglyConnectedB, decide_eq_true_iff] at h
  rw [decide_eq_true_iff]
  intro u
  exact bfsDist_isSome_mono (outAdj_subset_undAdj G) G.n _ u (h _ u)

/-- C2 (amended): for a parsed graph with at least one node,
`calculate_statistics` returns `diameter = NaN` and `avgPathLength = NaN`
(not an error) when the undirected projection is disconnected — and such an
item still proceeds to a written feature row; it returns both as real
numbers when the digraph is strongly connected; but when the undirected
projection is connected while the digraph is not strongly connected,
`nx.diameter` raises inside the `try` block and `calculate_statistics`
returns `None`, so the item is rejected rather than written — the claim's
"real numbers whenever the undirected projection is connected" fails. -/
theorem calculate_statistics_connectivity_cases (G : Graph) (h : G.n ≠ 0) :
    (G.undConnectedB = false →
      ∃ s, calculate_statistics G = some s
        ∧ s.diameter = .nan ∧ s.avgPathLength = .nan)
    ∧ (G.stronglyConnectedB = true →
      ∃ s, calculate_statistics G = some s
        ∧ s.diameter = .val (G.diameterVal : ℚ)
        ∧ s.avgPathLength = .val (if G.n = 1 then 0
            else G.distSum / ((G.n : ℚ) * ((G.n : ℚ) - 1))))
    ∧ (G.undConnectedB = true → G.stronglyConnectedB = false →
      calculate_statistics G = none)
    ∧ (∀ (w : World) (processed : List Str) (item : WorkItem),
        w.parse item.identity = some G → item.identity ∉ processed →
        G.edges.card ≠ 0 → G.undConnectedB = false →
        (w.betweenness G).isSome → (w.closeness G).isSome →
        (process_file w processed item).1.isSome) := by
  have hclus : nx_average_clustering G = .ok ((∑ v, G.clusteringCoeff v) / (G.n : ℚ)) := by
    simp [nx_average_clustering, h]
  have hdisc : G.undConnectedB = false →
      calculate_statistics G = some ⟨G.n, G.edges.card,
        (if 0 < G.n then (∑ v, (G.degree v : ℚ)) / (G.n : ℚ) else 0),
        nx_density G, .nan, (∑ v, G.clusteringCoeff v) / (G.n : ℚ), .nan⟩ := by
    intro hconn
    unfold calculate_statistics
    rw [nx_is_connected_und_ok G h, hconn, hclus]
    rfl
  refine ⟨fun hconn => ⟨_, hdisc hconn, rfl, rfl⟩, ?_, ?_, ?_⟩
  · intro hstrong
    have hconn := strongly_connected_undConnected G h hstrong
    have hd : diameterExpr G true = .ok (.val (G.diameterVal : ℚ)) := by
      simp [diameterExpr, nx_diameter, h, hstrong, Except.map]
    have ha : aplExpr G true = .ok (.val (if G.n = 1 then 0
        else G.distSum / ((G.n : ℚ) * ((G.n : ℚ) - 1)))) := by
      by_cases h1 : G.n = 1
      · simp [aplExpr, nx_average_shortest_path_length, h, h1, Except.map]
      · simp [aplExpr, nx_average_shortest_path_length, h, h1, hstrong, Except.map]
    refine ⟨⟨G.n, G.edges.card,
      (if 0 < G.n then (∑ v, (G.degree v : ℚ)) / (G.n : ℚ) else 0),
      nx_density G, .val (G.diameterVal : ℚ),
      (∑ v, G.clusteringCoeff v) / (G.n : ℚ),
      .val (if G.n = 1 then 0 else G.distSum / ((G.n : ℚ) * ((G.n : ℚ) - 1)))⟩,
      ?_, rfl, rfl⟩
    unfold calculate_statistics
    rw [nx_is_connected_und_ok G h, hconn]
    dsimp only
    rw [hd, hclus, ha]
  · intro hconn hnstrong
    have hd : diameterExpr G true = .error () := by
      simp [diameterExpr, nx_diameter, h, hnstrong, Except.map]
    unfold calculate_statistics
    rw [nx_is_connected_und_ok G h, hconn]
    dsimp only
    rw [hd]
  · intro w processed item hp hmem hedges hconn hbet hclos
    obtain ⟨s, hs, _, _⟩ := (fun hc => (⟨_, hdisc hc, rfl, rfl⟩ :
      ∃ s, calculate_statistics G = some s
        ∧ s.diameter = RFloat.nan ∧ s.avgPathLength = RFloat.nan)) hconn
    have hcm : ∃ t, calculate_centrality_measures w G = some t := by
      rcases hb : w.betweenness G with _ | bv
      · rw [hb] at hbet
        exact absurd hbet (by simp)
      · rcases hcl : w.closeness G with _ | cv
        · rw [hcl] at hclos
          exact absurd hclos (by simp)
        · exact ⟨(calculate_degree_centrality (nx_to_numpy_array G), bv, cv, clusteringList G),
            by simp [calculate_centrality_measures, hb, hcl]⟩
    obtain ⟨⟨dc, bc, cc, kc⟩, hcm⟩ := hcm
    have hz : ¬ s.numNodes = 0 := by
      rw [calculate_statistics_numNodes G s hs]
      exact h
    have hedges' : ¬ G.edges = ∅ := by
      simpa [← Finset.card_eq_zero] using hedges
    simp [process_file, parse_network_data, hmem, hp, h, hedges', hs, hcm, hz]

/-- C2 counterexample: the two-node digraph with one arc has a connected
undirected projection, yet `calculate_statistics` returns `None` (the
`nx.diameter` call raises on the not-strongly-connected digraph) instead of
real diameter and path-length values, and the item is rejected with
`StatisticsError` instead of having its row written. -/
theorem stats_weakly_connected_counterexample :
    (⟨2, {(0, 1)}⟩ : Graph).undConnectedB = true
    ∧ calculate_statistics ⟨2, {(0, 1)}⟩ = none
    ∧ process_file witnessWorld [] ⟨"Nonmalicious/b.dot".toList, false⟩
      = (none, [⟨"Nonmalicious/b.dot".toList, .statisticsError, msgStats⟩]) := by
  decide

/-- Witness for `calculate_statistics_connectivity_cases` at a disconnected
graph, a strongly connected graph, the weakly connected path, and a written
row for the disconnected item. -/
theorem calculate_statistics_connectivity_cases_witness :
    (∃ s, calculate_statistics ⟨4, {(0, 1), (2, 3)}⟩ = some s
      ∧ s.diameter = .nan ∧ s.avgPathLength = .nan)
    ∧ (∃ s, calculate_statistics ⟨2, {(0, 1), (1, 0)}⟩ = some s
      ∧ s.diameter = .val ((⟨2, {(0, 1), (1, 0)}⟩ : Graph).diameterVal : ℚ)
      ∧ s.avgPathLength = .val (if (⟨2, {(0, 1), (1, 0)}⟩ : Graph).n = 1 then 0
          else (⟨2, {(0, 1), (1, 0)}⟩ : Graph).distSum
            / (((⟨2, {(0, 1), (1, 0)}⟩ : Graph).n : ℚ)
              * (((⟨2, {(0, 1), (1, 0)}⟩ : Graph).n : ℚ) - 1))))
    ∧ calculate_statistics ⟨2, {(0, 1)}⟩ = none
    ∧ (process_file witnessWorld [] ⟨"Malicious/a.dot".toList, true⟩).1.isSome :=
  ⟨(calculate_statistics_connectivity_cases ⟨4, {(0, 1), (2, 3)}⟩ (by decide)).1 (by decide),
   (calculate_statistics_connectivity_cases ⟨2, {(0, 1), (1, 0)}⟩ (by decide)).2.1 (by decide),
   (calculate_statistics_connectivity_cases ⟨2, {(0, 1)}⟩ (by decide)).2.2.1
     (by decide) (by decide),
   (calculate_statistics_connectivity_cases ⟨4, {(0, 1), (2, 3)}⟩ (by decide)).2.2.2
     witnessWorld [] ⟨"Malicious/a.dot".toList, true⟩ (by rfl) (by decide) (by decide)
     (by decide) (by rfl) (by rfl)⟩

theorem outputIdentities_mono {f₁ f₂ : Option (List (List Str))}
    (h : (f₁.getD []) <+: (f₂.getD [])) :
    ∀ id ∈ outputIdentities f₁, id ∈ outputIdentities f₂ := by
  intro id hid
  unfold outputIdentities at *
  obtain ⟨t, ht⟩ := h
  rw [← ht]
  rcases hf : f₁.getD [] with _ | ⟨r, rs⟩
  · rw [hf] at hid
    simp at hid
  · rw [hf] at hid
    simp only [List.cons_append, List.drop_succ_cons, List.drop_zero] at hid ⊢
    rw [List.filterMap_append]
    exact List.mem_append.2 (Or.inl hid)

/-- C9: a run only ever appends to the output CSV and to the failure CSV:
the prior file contents are a prefix of the post-run contents, so every row
— and every output identity — present before the run is still present after
it; resume never removes or overwrites rows. -/
theorem sinks_append_only (w : World) (sched : List WorkItem → List WorkItem)
    (outFile failFile : Option (List (List Str))) :
    (outFile.getD []) <+: ((runMain w sched outFile failFile).output.getD [])
    ∧ (failFile.getD []) <+: ((runMain w sched outFile failFile).failures.getD [])
    ∧ (∀ id ∈ outputIdentities outFile,
        id ∈ outputIdentities (runMain w sched outFile failFile).output) := by
  have hout : (outFile.getD []) <+: ((runMain w sched outFile failFile).output.getD []) := by
    simp only [runMain]
    by_cases hit : (enumerateWork w (get_processed_files outFile)).isEmpty
    · simp [hit]
    · rw [if_neg hit]
      by_cases hpr : (outFile.getD []) = []
      · rw [hpr]
        exact List.nil_prefix
      · have : ¬ (outFile.getD []).isEmpty := by
          simpa [List.isEmpty_iff] using hpr
        simp only [this, Bool.false_eq_true, if_false, Option.getD_some]
        exact ⟨_, rfl⟩
  refine ⟨hout, ?_, outputIdentities_mono hout⟩
  simp only [runMain]
  by_cases hit : (enumerateWork w (get_processed_files outFile)).isEmpty
  · rcases failFile with _ | rows
    · simp [hit]
    · simp [hit]
  · rw [if_neg hit]
    rcases failFile with _ | rows
    · simp
    · simp only [Option.getD_some]
      exact ⟨_, rfl⟩

/-- Witness for `sinks_append_only`: an identity present in a prior output
file is still present after a run over an empty corpus. -/
theorem sinks_append_only_witness :
    ("a".toList ∈ outputIdentities (some [["h".toList], ["a".toList]]))
    ∧ "a".toList ∈ outputIdentities
        (runMain witnessWorldParse id (some [["h".toList], ["a".toList]]) none).output :=
  ⟨by decide,
   (sinks_append_only witnessWorldParse id (some [["h".toList], ["a".toList]]) none).2.2
     "a".toList (by decide)⟩

theorem process_file_ledger_free (w : World) (p : List Str) (it : WorkItem)
    (h : it.identity ∉ p) : process_file w p it = process_file w [] it := by
  unfold process_file
  rw [if_neg h, if_neg (List.not_mem_nil _)]

theorem enumerateWork_nil (w : World) :
    enumerateWork w [] = (findDotFiles w.malFiles).map (fun p => ⟨p, true⟩)
      ++ (findDotFiles w.nonmalFiles).map (fun p => ⟨p, false⟩) := by
  unfold enumerateWork
  simp

theorem map_mk_map_identity (l : List Str) (b : Bool) :
    (l.map (fun p => (⟨p, b⟩ : WorkItem))).map WorkItem.identity = l := by
  induction l with
  | nil => rfl
  | cons a t ih => simp [ih]

theorem enumerateWork_map_identity (w : World) :
    (enumerateWork w []).map WorkItem.identity = allDotPaths w := by
  rw [enumerateWork_nil, List.map_append, map_mk_map_identity, map_mk_map_identity]
  rfl

theorem mem_enumerateWork_subset (w : World) (proc : List Str) (it : WorkItem)
    (h : it ∈ enumerateWork w proc) : it ∈ enumerateWork w [] := by
  rw [enumerateWork_nil]
  unfold enumerateWork at h
  rcases List.mem_append.1 h with h' | h'
  · obtain ⟨p, hp, rfl⟩ := List.mem_map.1 h'
    exact List.mem_append.2 (Or.inl (List.mem_map.2 ⟨p, (List.mem_filter.1 hp).1, rfl⟩))
  · obtain ⟨p, hp, rfl⟩ := List.mem_map.1 h'
    exact List.mem_append.2 (Or.inr (List.mem_map.2 ⟨p, (List.mem_filter.1 hp).1, rfl⟩))

theorem mem_enumerateWork_not_processed (w : World) (proc : List Str) (it : WorkItem)
    (h : it ∈ enumerateWork w proc) : it.identity ∉ proc := by
  unfold enumerateWork at h
  rcases List.mem_append.1 h with h' | h' <;>
  · obtain ⟨p, hp, rfl⟩ := List.mem_map.1 h'
    have h2 := (List.mem_filter.1 hp).2
    simpa using h2

theorem mem_enumerateWork_identity_all (w : World) (proc : List Str) (it : WorkItem)
    (h : it ∈ enumerateWork w proc) : it.identity ∈ allDotPaths w := by
  rw [← enumerateWork_map_identity w]
  exact List.mem_map_of_mem _ (mem_enumerateWork_subset w proc it h)

theorem processAll_ledger (w : World) (p : List Str) (l : List WorkItem)
    (htrim : ∀ it ∈ l, strStrip it.identity = it.identity) :
    ((processAll w p l).1.map (fun row => row.map Cell.render)).filterMap
        (fun r => r.head?.map strStrip)
      = (l.filter (fun it => (process_file w p it).1.isSome)).map WorkItem.identity := by
  induction l with
  | nil => simp [processAll]
  | cons it rest ih =>
    have htr := htrim it (List.mem_cons_self it rest)
    have ihr := ih (fun x hx => htrim x (List.mem_cons_of_mem it hx))
    rcases hres : (process_file w p it).1 with _ | row
    · rw [List.filter_cons_of_neg (by simp [hres])]
      simp only [processAll, hres]
      simpa using ihr
    · have hhead := (process_file_row_parts w p it row hres).1
      rw [List.filter_cons_of_pos (by simp [hres])]
      simp only [processAll, hres, List.singleton_append, List.map_cons,
        List.filterMap_cons, List.head?_map, hhead]
      simp [Cell.render, htr, ihr]

theorem processAll_output_ids (w : World) (p : List Str) (l : List WorkItem) :
    ((processAll w p l).1.map (fun row => row.map Cell.render)).filterMap List.head?
      = (l.filter (fun it => (process_file w p it).1.isSome)).map WorkItem.identity := by
  induction l with
  | nil => simp [processAll]
  | cons it rest ih =>
    rcases hres : (process_file w p it).1 with _ | row
    · rw [List.filter_cons_of_neg (by simp [hres])]
      simp only [processAll, hres]
      simpa using ih
    · have hhead := (process_file_row_parts w p it row hres).1
      rw [List.filter_cons_of_pos (by simp [hres])]
      simp only [processAll, hres, List.singleton_append, List.map_cons,
        List.filterMap_cons, List.head?_map, hhead]
      simp [Cell.render, ih]

theorem runMain_output_empty (w : World) (sched : List WorkItem → List WorkItem)
    (outFile failFile : Option (List (List Str)))
    (h : (enumerateWork w (get_processed_files outFile)).isEmpty) :
    (runMain w sched outFile failFile).output = outFile := by
  simp [runMain, h]

theorem runMain_output_nonempty (w : World) (sched : List WorkItem → List WorkItem)
    (outFile failFile : Option (List (List Str)))
    (h : ¬ (enumerateWork w (get_processed_files outFile)).isEmpty) :
    (runMain w sched outFile failFile).output
      = some ((if (outFile.getD []).isEmpty then [outputHeader] else outFile.getD [])
          ++ ((processAll w (get_processed_files outFile)
              (sched (enumerateWork w (get_processed_files outFile)))).1.map
            (fun row => row.map Cell.render))) := by
  simp [runMain, h]

/-- C1: over an unchanged corpus (a fixed `World`), a second run starting
from the first run's output file adds nothing: the output file is literally
unchanged (so in particular its identity set is), the identities in the
output never contain duplicates, and — the claim's concrete scenario — with
a prior output whose first column holds `{A, B}` (after header skip and
whitespace trim) over the corpus `{A, B, C}`, the Work Enumerator yields
only `C`. -/
theorem pipeline_idempotent_resume (w : World)
    (sched₁ sched₂ : List WorkItem → List WorkItem)
    (hs₁ : ∀ l, (sched₁ l).Perm l) (hs₂ : ∀ l, (sched₂ l).Perm l)
    (hnd : (allDotPaths w).Nodup)
    (htrim : ∀ p ∈ allDotPaths w, strStrip p = p) :
    (runMain w sched₂ (runMain w sched₁ none none).output
        (runMain w sched₁ none none).failures).output
      = (runMain w sched₁ none none).output
    ∧ (outputIdentities (runMain w sched₁ none none).output).Nodup
    ∧ enumerateWork witnessWorld
        (get_processed_files (some [["Filename".toList],
          [" Malicious/a.dot ".toList], ["Nonmalicious/b.dot".toList]]))
      = [⟨"Malicious/c.dot".toList, true⟩] := by
  have hconc : enumerateWork witnessWorld
      (get_processed_files (some [["Filename".toList],
        [" Malicious/a.dot ".toList], ["Nonmalicious/b.dot".toList]]))
      = [⟨"Malicious/c.dot".toList, true⟩] := by decide
  by_cases hit1 : (enumerateWork w []).isEmpty
  · have hr1o : (runMain w sched₁ none none).output = none :=
      runMain_output_empty w sched₁ none none hit1
    refine ⟨?_, ?_, hconc⟩
    · rw [hr1o]
      exact runMain_output_empty w sched₂ none _ hit1
    · rw [hr1o]
      simp [outputIdentities]
  · have hr1out : (runMain w sched₁ none none).output
        = some (outputHeader :: ((processAll w [] (sched₁ (enumerateWork w []))).1.map
            (fun row => row.map Cell.render))) := by
      rw [runMain_output_nonempty w sched₁ none none hit1]
      rfl
    have hledger : get_processed_files (runMain w sched₁ none none).output
        = ((sched₁ (enumerateWork w [])).filter
            (fun it => (process_file w [] it).1.isSome)).map WorkItem.identity := by
      rw [hr1out]
      simp only [get_processed_files, List.drop_one, List.tail_cons]
      exact processAll_ledger w [] _ (fun it hit =>
        htrim _ (mem_enumerateWork_identity_all w [] it ((hs₁ _).mem_iff.1 hit)))
    have hnone : ∀ it ∈ sched₂ (enumerateWork w
        (get_processed_files (runMain w sched₁ none none).output)),
        (process_file w (get_processed_files (runMain w sched₁ none none).output) it).1
          = none := by
      intro it hit
      have hit₂ := (hs₂ _).mem_iff.1 hit
      have hnm := mem_enumerateWork_not_processed w _ it hit₂
      rw [process_file_ledger_free w _ it hnm]
      rcases hres : (process_file w [] it).1 with _ | row
      · rfl
      · exfalso
        apply hnm
        rw [hledger]
        have hit₁ := mem_enumerateWork_subset w _ it hit₂
        exact List.mem_map_of_mem _
          (List.mem_filter.2 ⟨(hs₁ _).mem_iff.2 hit₁, by simp [hres]⟩)
    refine ⟨?_, ?_, hconc⟩
    · by_cases hit2 : (enumerateWork w
          (get_processed_files (runMain w sched₁ none none).output)).isEmpty
      · exact runMain_output_empty w sched₂ _ _ hit2
      · have hrows2 : (processAll w
            (get_processed_files (runMain w sched₁ none none).output)
            (sched₂ (enumerateWork w
              (get_processed_files (runMain w sched₁ none none).output)))).1 = [] := by
          rw [processAll_fst]
          exact List.filterMap_eq_nil_iff.2 hnone
        rw [runMain_output_nonempty w sched₂ _ _ hit2, hrows2]
        rw [hr1out]
        simp
    · rw [hr1out]
      unfold outputIdentities
      rw [Option.getD_some, List.drop_one, List.tail_cons, processAll_output_ids]
      have hperm : ((sched₁ (enumerateWork w [])).map WorkItem.identity).Perm
          (allDotPaths w) := by
        rw [← enumerateWork_map_identity w]
        exact (hs₁ _).map _
      exact List.Nodup.sublist
        (List.Sublist.map _ (List.filter_sublist _)) (hperm.nodup_iff.2 hnd)

/-- Witness for `pipeline_idempotent_resume`: the concrete three-file corpus
with the identity schedule satisfies every hypothesis, and the theorem
yields the unchanged second-run output and duplicate-free identities. -/
theorem pipeline_idempotent_resume_witness :
    (allDotPaths witnessWorld).Nodup
    ∧ (∀ p ∈ allDotPaths witnessWorld, strStrip p = p)
    ∧ (runMain witnessWorld id (runMain witnessWorld id none none).output
        (runMain witnessWorld id none none).failures).output
      = (runMain witnessWorld id none none).output
    ∧ (outputIdentities (runMain witnessWorld id none none).output).Nodup :=
  have h := pipeline_idempotent_resume witnessWorld id id
    (fun l => List.Perm.refl l) (fun l => List.Perm.refl l) (by decide) (by decide)
  ⟨by decide, by decide, h.1, h.2.1⟩
